import Mathlib

/-!
Verification development for the minifixwood file check-out subsystem.

The definitions below are a shallow embedding of the lock manager
(`services/api/app/routers/locks.py`), the conflict guard and file
operations (`services/api/app/routers/files.py`).  Time is modelled as
`Nat` (minutes since an arbitrary epoch); database rows are records in
lists, most recently inserted first; the per-request transaction is one
step of a pure state-transition function.  SQL `SELECT ... LIMIT 1`
becomes `List.find?`, which is deterministic; this agrees with the
database whenever at most one row matches, which is the situation in all
states reachable by the modelled operations.
-/

namespace Minifixwood

/-- Lease duration, `LEASE_MINUTES = 15` in `locks.py`. -/
def LEASE_MINUTES : Nat := 15

/-- One row of the `locks` table. -/
structure LockRow where
  lockId : Nat
  fileId : Nat
  lockedBy : Nat
  clientId : String
  lockedAt : Nat
  expiresAt : Nat
  active : Bool
deriving DecidableEq, Repr

/-- The `locks` table plus the id generator (`uuid` defaults in the DB). -/
structure LockStore where
  locks : List LockRow
  nextLockId : Nat
deriving DecidableEq, Repr

/-- The empty lock store. -/
def emptyLockStore : LockStore := ⟨[], 0⟩

/-- SELECT of `acquire`: the active lock row for a file, if any
(`WHERE file_id = :fid AND active = true LIMIT 1`). -/
def findActiveLock (locks : List LockRow) (fid : Nat) : Option LockRow :=
  locks.find? (fun l => l.fileId == fid && l.active)

/-- Result of a lock-manager endpoint. -/
inductive LockResult where
  | ok (row : LockRow)
  | conflict (lockedBy : Nat) (expiresAt : Nat)
  | notFound
deriving DecidableEq, Repr

/-- UPDATE `locks SET active=false WHERE id=:id`. -/
def deactivateLock (st : LockStore) (lid : Nat) : LockStore :=
  { st with locks := st.locks.map (fun l =>
      if l.lockId == lid then { l with active := false } else l) }

/-- INSERT a fresh lock row (the tail of `acquire`). -/
def insertLock (st : LockStore) (now fid uid : Nat) (cid : String) (expires : Nat) :
    LockRow × LockStore :=
  let row : LockRow :=
    { lockId := st.nextLockId, fileId := fid, lockedBy := uid, clientId := cid
      lockedAt := now, expiresAt := expires, active := true }
  (row, { locks := row :: st.locks, nextLockId := st.nextLockId + 1 })

/-- `POST /locks/acquire` (`acquire` in `locks.py`), with the request's
`file_id`/`client_id` and the authenticated user's id as arguments.  The
control flow mirrors the Python: early return for an unexpired lock held
by the caller; flip an expired row inactive; 409 for an unexpired lock
held by someone else; otherwise insert a fresh row expiring at
`now + LEASE_MINUTES`. -/
def acquire (st : LockStore) (now fid uid : Nat) (cid : String) :
    LockResult × LockStore :=
  let expires := now + LEASE_MINUTES
  match findActiveLock st.locks fid with
  | none =>
      let (row, st1) := insertLock st now fid uid cid expires
      (.ok row, st1)
  | some ex =>
      if ex.expiresAt > now ∧ ex.lockedBy = uid then
        (.ok ex, st)
      else if ex.expiresAt ≤ now then
        let st1 := deactivateLock st ex.lockId
        let (row, st2) := insertLock st1 now fid uid cid expires
        (.ok row, st2)
      else if ex.lockedBy ≠ uid then
        (.conflict ex.lockedBy ex.expiresAt, st)
      else
        -- dead branch: an unexpired lock held by the caller already returned above
        let (row, st1) := insertLock st now fid uid cid expires
        (.ok row, st1)

/-- `POST /locks/heartbeat` (`heartbeat` in `locks.py`):
`UPDATE locks SET expires_at = :expires WHERE id = :id AND active = true
AND locked_by = :uid RETURNING ...`; 404 when no row matches.  Note the
WHERE clause does not consult `expires_at`. -/
def heartbeat (st : LockStore) (now lid uid : Nat) : LockResult × LockStore :=
  let expires := now + LEASE_MINUTES
  match st.locks.find? (fun l => l.lockId == lid && l.active && l.lockedBy == uid) with
  | none => (.notFound, st)
  | some l =>
      let st1 := { st with locks := st.locks.map (fun r =>
        if r.lockId == lid && r.active && r.lockedBy == uid then
          { r with expiresAt := expires } else r) }
      (.ok { l with expiresAt := expires }, st1)

/-- `POST /locks/release` (`release` in `locks.py`):
`UPDATE locks SET active=false WHERE id = :id AND locked_by = :uid AND
active = true RETURNING ...`; 404 when no row matches. -/
def release (st : LockStore) (lid uid : Nat) : LockResult × LockStore :=
  match st.locks.find? (fun l => l.lockId == lid && l.lockedBy == uid && l.active) with
  | none => (.notFound, st)
  | some l =>
      let st1 := { st with locks := st.locks.map (fun r =>
        if r.lockId == lid && r.lockedBy == uid && r.active then
          { r with active := false } else r) }
      (.ok { l with active := false }, st1)

/-- A lock-manager call, for sequences of operations. -/
inductive LockOp where
  | acq (now fid uid : Nat) (cid : String)
  | hb (now lid uid : Nat)
  | rel (lid uid : Nat)
deriving DecidableEq, Repr

/-- State transition of one lock-manager call. -/
def applyLockOp (st : LockStore) : LockOp → LockStore
  | .acq now fid uid cid => (acquire st now fid uid cid).2
  | .hb now lid uid => (heartbeat st now lid uid).2
  | .rel lid uid => (release st lid uid).2

/-- Run a sequence of lock-manager calls from the empty store. -/
def runLockOps (ops : List LockOp) : LockStore :=
  ops.foldl applyLockOp emptyLockStore

/-- The active rows of a given file. -/
def activeLocksFor (locks : List LockRow) (fid : Nat) : List LockRow :=
  locks.filter (fun l => l.fileId == fid && l.active)

/-- The active rows of a given file whose expiry has not yet passed. -/
def liveLocksFor (locks : List LockRow) (fid now : Nat) : List LockRow :=
  locks.filter (fun l => l.fileId == fid && l.active && now < l.expiresAt)

/-! ### Generic list lemmas -/

/-- A list of length at most one containing `x` is exactly `[x]`. -/
theorem eq_singleton_of_mem_of_length_le_one {α : Type} {x : α} {l : List α}
    (hx : x ∈ l) (hlen : l.length ≤ 1) : l = [x] := by
  cases l with
  | nil => cases hx
  | cons a t =>
    cases t with
    | nil =>
      rw [List.mem_singleton] at hx
      rw [hx]
    | cons b t' => simp [List.length_cons] at hlen

/-- Filtering by a stronger predicate yields at most as many elements. -/
theorem length_filter_mono {α : Type} (p q : α → Bool)
    (h : ∀ a, q a = true → p a = true) (l : List α) :
    (l.filter q).length ≤ (l.filter p).length := by
  induction l with
  | nil => simp
  | cons a t ih =>
    simp only [List.filter_cons]
    by_cases hq : q a = true
    · simp only [hq, h a hq, if_true, List.length_cons]
      exact Nat.succ_le_succ ih
    · simp only [hq, if_false]
      by_cases hp : p a = true
      · simp only [hp, if_true, List.length_cons]
        exact Nat.le_succ_of_le ih
      · simp only [hp, if_false]
        exact ih

/-- Mapping by a function that never makes the predicate true cannot
increase the number of matching elements. -/
theorem length_filter_map_le {α : Type} (f : α → α) (p : α → Bool)
    (h : ∀ a, p (f a) = true → p a = true) (l : List α) :
    ((l.map f).filter p).length ≤ (l.filter p).length := by
  induction l with
  | nil => simp
  | cons a t ih =>
    simp only [List.map_cons, List.filter_cons]
    by_cases hfa : p (f a) = true
    · simp only [hfa, h a hfa, if_true, List.length_cons]
      exact Nat.succ_le_succ ih
    · simp only [hfa, if_false]
      by_cases hpa : p a = true
      · simp only [hpa, if_true, List.length_cons]
        exact Nat.le_succ_of_le ih
      · simp only [hpa, if_false]
        exact ih

/-- Mapping by a function that never makes the predicate true preserves
emptiness of the filter. -/
theorem filter_map_eq_nil {α : Type} {f : α → α} {p : α → Bool}
    (h : ∀ a, p (f a) = true → p a = true) {l : List α}
    (hl : l.filter p = []) : (l.map f).filter p = [] := by
  have hle := length_filter_map_le f p h l
  rw [hl] at hle
  simp only [List.length_nil, Nat.le_zero] at hle
  exact List.length_eq_zero.mp hle

/-- Mapping by a predicate-preserving function keeps the count of
matching elements. -/
theorem length_filter_map_eq {α : Type} (f : α → α) (p : α → Bool)
    (h : ∀ a, p (f a) = p a) (l : List α) :
    ((l.map f).filter p).length = (l.filter p).length := by
  induction l with
  | nil => rfl
  | cons a t ih =>
    simp only [List.map_cons, List.filter_cons, h a]
    cases hpa : p a <;> simp [hpa, ih]

/-! ### Branch lemmas for `acquire` -/

/-- With no active lock on the file, `acquire` inserts a fresh row. -/
theorem acquire_of_none {st : LockStore} {now fid uid : Nat} {cid : String}
    (hfind : findActiveLock st.locks fid = none) :
    acquire st now fid uid cid =
      (LockResult.ok (insertLock st now fid uid cid (now + LEASE_MINUTES)).1,
       (insertLock st now fid uid cid (now + LEASE_MINUTES)).2) := by
  simp only [acquire, hfind]

/-- An unexpired lock held by the caller is returned unchanged. -/
theorem acquire_of_holder {st : LockStore} {now fid uid : Nat} {cid : String}
    {ex : LockRow} (hfind : findActiveLock st.locks fid = some ex)
    (hun : now < ex.expiresAt) (hold : ex.lockedBy = uid) :
    acquire st now fid uid cid = (.ok ex, st) := by
  simp only [acquire, hfind]
  rw [if_pos ⟨hun, hold⟩]

/-- An expired lock is flipped inactive and a fresh row inserted. -/
theorem acquire_of_expired {st : LockStore} {now fid uid : Nat} {cid : String}
    {ex : LockRow} (hfind : findActiveLock st.locks fid = some ex)
    (hexp : ex.expiresAt ≤ now) :
    acquire st now fid uid cid =
      (LockResult.ok (insertLock (deactivateLock st ex.lockId) now fid uid cid
          (now + LEASE_MINUTES)).1,
       (insertLock (deactivateLock st ex.lockId) now fid uid cid
          (now + LEASE_MINUTES)).2) := by
  simp only [acquire, hfind]
  rw [if_neg (by
    rintro ⟨hlt, -⟩
    exact absurd hexp (Nat.not_le.mpr hlt)), if_pos hexp]

/-- An unexpired lock held by someone else yields a 409 and no change. -/
theorem acquire_of_other {st : LockStore} {now fid uid : Nat} {cid : String}
    {ex : LockRow} (hfind : findActiveLock st.locks fid = some ex)
    (hun : now < ex.expiresAt) (hdiff : ex.lockedBy ≠ uid) :
    acquire st now fid uid cid = (.conflict ex.lockedBy ex.expiresAt, st) := by
  simp only [acquire, hfind]
  rw [if_neg (by rintro ⟨-, heq⟩; exact hdiff heq),
    if_neg (Nat.not_le.mpr hun), if_pos hdiff]

/-! ### The at-most-one-active-lock invariant (claim C1) -/

/-- Invariant: every file has at most one active lock row. -/
def LockInv (st : LockStore) : Prop :=
  ∀ fid, (activeLocksFor st.locks fid).length ≤ 1

/-- The empty store satisfies the invariant. -/
theorem lockInv_empty : LockInv emptyLockStore := by
  intro fid
  simp [emptyLockStore, activeLocksFor]

/-- No active lock found means the active filter is empty. -/
theorem activeLocksFor_eq_nil_of_find_none {locks : List LockRow} {fid : Nat}
    (h : findActiveLock locks fid = none) : activeLocksFor locks fid = [] := by
  simp only [findActiveLock, List.find?_eq_none] at h
  simp only [activeLocksFor, List.filter_eq_nil_iff]
  exact h

/-- A found active lock is a member of the active filter. -/
theorem mem_activeLocksFor_of_find {locks : List LockRow} {fid : Nat} {ex : LockRow}
    (h : findActiveLock locks fid = some ex) : ex ∈ activeLocksFor locks fid := by
  simp only [findActiveLock] at h
  simp only [activeLocksFor]
  have hmem : ex ∈ locks := List.mem_of_find?_eq_some h
  have hp := List.find?_some (p := fun l : LockRow => l.fileId == fid && l.active) (a := ex) h
  exact List.mem_filter.mpr ⟨hmem, hp⟩

/-- Unfolding the active filter across an inserted row. -/
theorem activeLocksFor_cons (row : LockRow) (locks : List LockRow) (fid : Nat) :
    activeLocksFor (row :: locks) fid =
      if row.fileId == fid && row.active then row :: activeLocksFor locks fid
      else activeLocksFor locks fid := by
  simp [activeLocksFor, List.filter_cons]

/-- Deactivating a row never makes the active filter gain elements. -/
theorem deactivate_pred_le (lid fid : Nat) (a : LockRow) :
    ((fun l : LockRow => l.fileId == fid && l.active)
        (if a.lockId == lid then { a with active := false } else a)) = true →
      (a.fileId == fid && a.active) = true := by
  by_cases hid : (a.lockId == lid) = true
  · simp [hid]
  · simp [hid]

/-- When the active filter for a file is exactly `[ex]`, deactivating
`ex.lockId` empties it. -/
theorem activeLocksFor_deactivate_of_singleton (fid : Nat) (ex : LockRow) :
    ∀ locks : List LockRow,
      activeLocksFor locks fid = [ex] →
      activeLocksFor
        (locks.map (fun l =>
          if l.lockId == ex.lockId then { l with active := false } else l)) fid = [] := by
  intro locks
  induction locks with
  | nil => intro h; simp [activeLocksFor] at h
  | cons a t ih =>
    intro h
    rw [activeLocksFor_cons] at h
    simp only [List.map_cons, activeLocksFor_cons]
    by_cases hpa : (a.fileId == fid && a.active) = true
    · rw [if_pos hpa] at h
      injection h with h1 h2
      subst h1
      rw [if_neg (by rw [if_pos (by simp)]; simp)]
      simp only [activeLocksFor] at h2 ⊢
      exact filter_map_eq_nil (deactivate_pred_le a.lockId fid) h2
    · rw [if_neg hpa] at h
      by_cases hid : (a.lockId == ex.lockId) = true
      · rw [if_neg (by rw [if_pos hid]; simp)]
        exact ih h
      · rw [if_neg (by rw [if_neg hid]; exact hpa)]
        exact ih h

/-- Acquire preserves the invariant. -/
theorem lockInv_acquire (st : LockStore) (now fid uid : Nat) (cid : String)
    (h : LockInv st) : LockInv (acquire st now fid uid cid).2 := by
  cases hfind : findActiveLock st.locks fid with
  | none =>
    rw [acquire_of_none hfind]
    intro fid'
    simp only [insertLock]
    rw [activeLocksFor_cons]
    by_cases hf : (fid == fid') = true
    · rw [if_pos (by simp [hf])]
      have : fid = fid' := by simpa using hf
      rw [← this, activeLocksFor_eq_nil_of_find_none hfind]
      simp
    · rw [if_neg (by simp [hf])]
      exact h fid'
  | some ex =>
    rcases Nat.lt_or_ge now ex.expiresAt with hun | hexp
    · by_cases hold : ex.lockedBy = uid
      · rw [acquire_of_holder hfind hun hold]
        exact h
      · rw [acquire_of_other hfind hun hold]
        exact h
    · rw [acquire_of_expired hfind hexp]
      intro fid'
      simp only [insertLock, deactivateLock]
      rw [activeLocksFor_cons]
      by_cases hf : (fid == fid') = true
      · rw [if_pos (by simp [hf])]
        have heq : fid = fid' := by simpa using hf
        have hsing : activeLocksFor st.locks fid = [ex] :=
          eq_singleton_of_mem_of_length_le_one (mem_activeLocksFor_of_find hfind) (h fid)
        rw [← heq, activeLocksFor_deactivate_of_singleton fid ex st.locks hsing]
        simp
      · rw [if_neg (by simp [hf])]
        calc (activeLocksFor (st.locks.map _) fid').length
            ≤ (activeLocksFor st.locks fid').length := by
              exact length_filter_map_le _ _ (deactivate_pred_le ex.lockId fid') st.locks
          _ ≤ 1 := h fid'

/-- Heartbeat preserves the invariant. -/
theorem lockInv_heartbeat (st : LockStore) (now lid uid : Nat)
    (h : LockInv st) : LockInv (heartbeat st now lid uid).2 := by
  unfold heartbeat
  cases hfind : st.locks.find?
      (fun l => l.lockId == lid && l.active && l.lockedBy == uid) with
  | none => exact h
  | some l =>
    intro fid
    simp only [activeLocksFor]
    rw [length_filter_map_eq]
    · exact h fid
    · intro a
      by_cases hc : (a.lockId == lid && a.active && a.lockedBy == uid) = true
      · simp [hc]
      · simp [hc]

/-- Release preserves the invariant. -/
theorem lockInv_release (st : LockStore) (lid uid : Nat)
    (h : LockInv st) : LockInv (release st lid uid).2 := by
  unfold release
  cases hfind : st.locks.find?
      (fun l => l.lockId == lid && l.lockedBy == uid && l.active) with
  | none => exact h
  | some l =>
    intro fid
    simp only [activeLocksFor]
    calc ((st.locks.map _).filter _).length
        ≤ (st.locks.filter _).length := by
          apply length_filter_map_le
          intro a
          by_cases hc : (a.lockId == lid && a.lockedBy == uid && a.active) = true
          · simp [hc]
          · simp [hc]
      _ ≤ 1 := h fid

/-- Any sequence of operations from an invariant state stays invariant. -/
theorem lockInv_foldl (ops : List LockOp) :
    ∀ st, LockInv st → LockInv (ops.foldl applyLockOp st) := by
  induction ops with
  | nil => exact fun st h => h
  | cons op t ih =>
    intro st h
    apply ih
    cases op with
    | acq n f u c => exact lockInv_acquire st n f u c h
    | hb n l u => exact lockInv_heartbeat st n l u h
    | rel l u => exact lockInv_release st l u h

/-- C1: for every file and every sequence of lock-manager operations
(acquire, heartbeat, release) executed from an empty lock store, at most
one lock row with `active = true` and an expiry not yet passed exists
for that file at any observable instant. -/
theorem c1_at_most_one_live_lock (ops : List LockOp) (fid now : Nat) :
    (liveLocksFor (runLockOps ops).locks fid now).length ≤ 1 := by
  have hinv := lockInv_foldl ops emptyLockStore lockInv_empty fid
  refine Nat.le_trans ?_ hinv
  simp only [liveLocksFor, activeLocksFor]
  apply length_filter_mono
  intro a ha
  simp only [Bool.and_eq_true] at ha ⊢
  exact ⟨ha.1.1, ha.1.2⟩

/-! ### Claims C4, C5, C6: acquire behaviour -/

/-- C4: for every file with an active unexpired lock, a second `acquire`
by the current holder is idempotent: it returns the existing lock row
and changes nothing; in particular `expires_at` is not extended. -/
theorem c4_acquire_idempotent_for_holder (st : LockStore) (now fid uid : Nat)
    (cid : String) (ex : LockRow)
    (hfind : findActiveLock st.locks fid = some ex)
    (hun : now < ex.expiresAt) (hold : ex.lockedBy = uid) :
    acquire st now fid uid cid = (.ok ex, st) :=
  acquire_of_holder hfind hun hold

/-- Witness for C4 at a concrete store: user 7 holds lock 0 on file 1
until t=20; re-acquiring at t=10 returns the same row and state. -/
theorem c4_acquire_idempotent_for_holder_witness :
    findActiveLock (LockStore.mk [⟨0, 1, 7, "c", 0, 20, true⟩] 1).locks 1 =
        some ⟨0, 1, 7, "c", 0, 20, true⟩ ∧
    10 < (20 : Nat) ∧
    acquire ⟨[⟨0, 1, 7, "c", 0, 20, true⟩], 1⟩ 10 1 7 "x" =
      (.ok ⟨0, 1, 7, "c", 0, 20, true⟩, ⟨[⟨0, 1, 7, "c", 0, 20, true⟩], 1⟩) :=
  ⟨rfl, by decide,
    c4_acquire_idempotent_for_holder ⟨[⟨0, 1, 7, "c", 0, 20, true⟩], 1⟩ 10 1 7 "x"
      ⟨0, 1, 7, "c", 0, 20, true⟩ rfl (by decide) rfl⟩

/-- C5: for every file with an active unexpired lock held by `ex.lockedBy`,
`acquire` by any other actor fails with a conflict carrying the holder
and the lock's expiry, and leaves the lock store unchanged. -/
theorem c5_acquire_conflict_for_other (st : LockStore) (now fid uid : Nat)
    (cid : String) (ex : LockRow)
    (hfind : findActiveLock st.locks fid = some ex)
    (hun : now < ex.expiresAt) (hdiff : ex.lockedBy ≠ uid) :
    acquire st now fid uid cid = (.conflict ex.lockedBy ex.expiresAt, st) :=
  acquire_of_other hfind hun hdiff

/-- Witness for C5: user 9 tries to acquire file 1 locked by user 7
until t=20 at t=10 and gets the 409 carrying holder 7 and expiry 20. -/
theorem c5_acquire_conflict_for_other_witness :
    findActiveLock (LockStore.mk [⟨0, 1, 7, "c", 0, 20, true⟩] 1).locks 1 =
        some ⟨0, 1, 7, "c", 0, 20, true⟩ ∧
    10 < (20 : Nat) ∧ (7 : Nat) ≠ 9 ∧
    acquire ⟨[⟨0, 1, 7, "c", 0, 20, true⟩], 1⟩ 10 1 9 "x" =
      (.conflict 7 20, ⟨[⟨0, 1, 7, "c", 0, 20, true⟩], 1⟩) :=
  ⟨rfl, by decide, by decide,
    c5_acquire_conflict_for_other ⟨[⟨0, 1, 7, "c", 0, 20, true⟩], 1⟩ 10 1 9 "x"
      ⟨0, 1, 7, "c", 0, 20, true⟩ rfl (by decide) (by decide)⟩

/-- The fid-filter of a singleton determines `findActiveLock`. -/
theorem findActiveLock_of_fid_singleton {fid : Nat} {ex : LockRow} :
    ∀ {locks : List LockRow},
      locks.filter (fun l => l.fileId == fid) = [ex] →
      findActiveLock locks fid = if ex.active then some ex else none := by
  intro locks
  induction locks with
  | nil => intro h; simp at h
  | cons a t ih =>
    intro h
    rw [List.filter_cons] at h
    by_cases ha : (a.fileId == fid) = true
    · rw [if_pos ha] at h
      injection h with h1 h2
      subst h1
      have hnone : t.find? (fun l => l.fileId == fid && l.active) = none := by
        rw [List.find?_eq_none]
        intro x hx
        have := (List.filter_eq_nil_iff.mp h2) x hx
        simp only [Bool.and_eq_true]
        exact fun hc => this hc.1
      by_cases hact : a.active = true
      · rw [if_pos hact]
        simp only [findActiveLock]
        rw [List.find?_cons_of_pos _ (by simp [ha, hact])]
      · rw [if_neg hact]
        simp only [findActiveLock]
        rw [List.find?_cons_of_neg _ (by simp [hact])]
        exact hnone
    · rw [if_neg ha] at h
      simp only [findActiveLock]
      rw [List.find?_cons_of_neg _ (by simp [ha])]
      exact ih h

/-- Deactivation commutes with the fid-filter of a singleton. -/
theorem fid_filter_deactivate_of_singleton (fid : Nat) (ex : LockRow) :
    ∀ locks : List LockRow,
      locks.filter (fun l => l.fileId == fid) = [ex] →
      (locks.map (fun l =>
          if l.lockId == ex.lockId then { l with active := false } else l)).filter
        (fun l => l.fileId == fid) = [{ ex with active := false }] := by
  intro locks
  induction locks with
  | nil => intro h; simp at h
  | cons a t ih =>
    intro h
    rw [List.filter_cons] at h
    simp only [List.map_cons, List.filter_cons]
    by_cases ha : (a.fileId == fid) = true
    · rw [if_pos ha] at h
      injection h with h1 h2
      subst h1
      rw [if_pos (by rw [if_pos (by simp)]; simpa using ha), if_pos (by simp)]
      have : (t.map (fun l =>
          if l.lockId == a.lockId then { l with active := false } else l)).filter
            (fun l => l.fileId == fid) = [] := by
        apply filter_map_eq_nil _ h2
        intro x
        by_cases hx : (x.lockId == a.lockId) = true
        · rw [if_pos hx]; exact fun hh => hh
        · rw [if_neg hx]; exact fun hh => hh
      rw [this]
    · rw [if_neg ha] at h
      by_cases hid : (a.lockId == ex.lockId) = true
      · rw [if_neg (by rw [if_pos hid]; simpa using ha)]
        exact ih h
      · rw [if_neg (by rw [if_neg hid]; exact ha)]
        exact ih h

/-- C6: for every file whose only lock row has passed its expiry
(whether or not its active flag was flipped), the next `acquire` by any
actor succeeds without an explicit release, producing a fresh lock with
expiry `now + LEASE_MINUTES`, the caller as holder and the caller's
client tag; the stale row ends up inactive. -/
theorem c6_acquire_succeeds_after_expiry (st : LockStore) (now fid uid : Nat)
    (cid : String) (ex : LockRow)
    (honly : st.locks.filter (fun l => l.fileId == fid) = [ex])
    (hexp : ex.expiresAt ≤ now) :
    ∃ row st2, acquire st now fid uid cid = (.ok row, st2) ∧
      row.expiresAt = now + LEASE_MINUTES ∧
      row.lockedBy = uid ∧ row.clientId = cid ∧ row.active = true ∧
      st2.locks.filter (fun l => l.fileId == fid) =
        [row, { ex with active := false }] := by
  have hfind := findActiveLock_of_fid_singleton honly
  by_cases hact : ex.active = true
  · rw [if_pos hact] at hfind
    refine ⟨_, _, acquire_of_expired hfind hexp, rfl, rfl, rfl, rfl, ?_⟩
    simp only [insertLock, deactivateLock, List.filter_cons]
    rw [if_pos (by simp)]
    rw [fid_filter_deactivate_of_singleton fid ex st.locks honly]
  · rw [if_neg hact] at hfind
    refine ⟨_, _, acquire_of_none hfind, rfl, rfl, rfl, rfl, ?_⟩
    have hex : { ex with active := false } = ex := by
      obtain ⟨i, f, lb, ci, la, ea, ac⟩ := ex
      simp only [Bool.not_eq_true] at hact
      simp_all
    rw [hex]
    simp only [insertLock, List.filter_cons]
    rw [if_pos (by simp)]
    rw [honly]

/-- Witness for C6: the only lock on file 1 is active but expired
(expires 5 ≤ now 10); user 9 acquires and gets a fresh lock to t=25,
while the stale row is flipped inactive. -/
theorem c6_acquire_succeeds_after_expiry_witness :
    (LockStore.mk [⟨0, 1, 7, "c", 0, 5, true⟩] 1).locks.filter
        (fun l => l.fileId == 1) = [⟨0, 1, 7, "c", 0, 5, true⟩] ∧
    (5 : Nat) ≤ 10 ∧
    (∃ row st2,
      acquire ⟨[⟨0, 1, 7, "c", 0, 5, true⟩], 1⟩ 10 1 9 "k" = (.ok row, st2) ∧
      row.expiresAt = 10 + LEASE_MINUTES ∧
      row.lockedBy = 9 ∧ row.clientId = "k" ∧ row.active = true ∧
      st2.locks.filter (fun l => l.fileId == 1) =
        [row, { (⟨0, 1, 7, "c", 0, 5, true⟩ : LockRow) with active := false }]) :=
  ⟨rfl, by decide,
    c6_acquire_succeeds_after_expiry ⟨[⟨0, 1, 7, "c", 0, 5, true⟩], 1⟩ 10 1 9 "k"
      ⟨0, 1, 7, "c", 0, 5, true⟩ rfl (by decide)⟩

/-! ### Claim C3: lazy expiry on reads, and what heartbeat actually does -/

/-- Counterexample to C3 as stated: lock 0 on file 1 is held by user 7
with `expires_at = 5`, still `active`, and `now = 10 ≥ 5`; the claim
says heartbeat must not extend it, but the code's UPDATE only checks
`active` and `locked_by`, so the holder's heartbeat succeeds and
extends the lease to `10 + 15 = 25`. -/
theorem c3_counterexample :
    (5 : Nat) ≤ 10 ∧
    heartbeat ⟨[⟨0, 1, 7, "c", 0, 5, true⟩], 1⟩ 10 0 7 =
      (.ok ⟨0, 1, 7, "c", 0, 25, true⟩, ⟨[⟨0, 1, 7, "c", 0, 25, true⟩], 1⟩) := by
  constructor
  · decide
  · rfl

/-- C3 amended: `acquire` (and the conflict guard) re-evaluate
`expires_at` against the current time and treat an expired-but-active
row as free, but `heartbeat` does not re-check expiry: a heartbeat on an
active lock held by the caller extends it to `now + LEASE_MINUTES` even
when `expires_at` has already passed. -/
theorem c3_heartbeat_ignores_expiry (st : LockStore) (now lid uid : Nat) (l : LockRow)
    (hfind : st.locks.find?
        (fun r => r.lockId == lid && r.active && r.lockedBy == uid) = some l)
    (hexp : l.expiresAt ≤ now) :
    (heartbeat st now lid uid).1 = .ok { l with expiresAt := now + LEASE_MINUTES } ∧
    (∀ fid uid2 cid ex, findActiveLock st.locks fid = some ex → ex.expiresAt ≤ now →
      ∃ row st2, acquire st now fid uid2 cid = (.ok row, st2) ∧
        row.lockedBy = uid2 ∧ row.expiresAt = now + LEASE_MINUTES) := by
  constructor
  · simp only [heartbeat, hfind]
  · intro fid uid2 cid ex hf he
    exact ⟨_, _, acquire_of_expired hf he, rfl, rfl⟩

/-- Witness for the amended C3 at the counterexample state. -/
theorem c3_heartbeat_ignores_expiry_witness :
    (LockStore.mk [⟨0, 1, 7, "c", 0, 5, true⟩] 1).locks.find?
        (fun r => r.lockId == 0 && r.active && r.lockedBy == 7) =
      some ⟨0, 1, 7, "c", 0, 5, true⟩ ∧
    (5 : Nat) ≤ 10 ∧
    ((heartbeat ⟨[⟨0, 1, 7, "c", 0, 5, true⟩], 1⟩ 10 0 7).1 =
        .ok { (⟨0, 1, 7, "c", 0, 5, true⟩ : LockRow) with expiresAt := 10 + LEASE_MINUTES } ∧
      (∀ fid uid2 cid ex,
        findActiveLock (LockStore.mk [⟨0, 1, 7, "c", 0, 5, true⟩] 1).locks fid = some ex →
        ex.expiresAt ≤ 10 →
        ∃ row st2,
          acquire ⟨[⟨0, 1, 7, "c", 0, 5, true⟩], 1⟩ 10 fid uid2 cid = (.ok row, st2) ∧
          row.lockedBy = uid2 ∧ row.expiresAt = 10 + LEASE_MINUTES)) :=
  ⟨rfl, by decide,
    c3_heartbeat_ignores_expiry ⟨[⟨0, 1, 7, "c", 0, 5, true⟩], 1⟩ 10 0 7
      ⟨0, 1, 7, "c", 0, 5, true⟩ rfl (by decide)⟩

/-! ### Version chain store (`files.py`: complete_upload) -/

/-- One row of the `files` table (the fields the claims touch). -/
structure FileRow where
  fileId : Nat
  name : String
  mime : String
  sizeBytes : Nat
  currentVersionId : Option Nat
deriving DecidableEq, Repr

/-- One row of the `file_versions` table. -/
structure VersionRow where
  verId : Nat
  fileId : Nat
  versionNo : Nat
  objectKey : String
  etag : String
  sha256 : String
  sizeBytes : Nat
  createdBy : Nat
deriving DecidableEq, Repr

/-- The metadata store for files and versions, with the id generator. -/
structure FileStore where
  files : List FileRow
  versions : List VersionRow
  nextVerId : Nat
deriving DecidableEq, Repr

/-- Body of a `complete-upload` request (`CompleteUploadRequest`). -/
structure UploadReq where
  objectKey : String
  etag : String
  sha256 : String
  sizeBytes : Nat
deriving DecidableEq, Repr

/-- The version numbers recorded for a file. -/
def versionNosFor (fs : FileStore) (fid : Nat) : List Nat :=
  (fs.versions.filter (fun v => v.fileId == fid)).map (fun v => v.versionNo)

/-- SELECT `COALESCE(MAX(version_no), 0) FROM file_versions WHERE
file_id = :fid` (first query of `complete_upload`). -/
def maxVersionNo (fs : FileStore) (fid : Nat) : Nat :=
  (versionNosFor fs fid).foldl max 0

/-- The `version_no = maxv + 1` computed by `complete_upload`. -/
def nextVersionNo (fs : FileStore) (fid : Nat) : Nat :=
  maxVersionNo fs fid + 1

/-- `POST /files/{file_id}/versions/complete-upload` (`complete_upload`
in `files.py`): computes the next version number, inserts the version
row, and updates the file row's current-version pointer and mirrored
size, all committed as one transaction (a single transition here).
Note the route consults no lock at all. -/
def complete_upload (fs : FileStore) (fid uid : Nat) (req : UploadReq) :
    VersionRow × FileStore :=
  let row : VersionRow :=
    { verId := fs.nextVerId, fileId := fid, versionNo := nextVersionNo fs fid,
      objectKey := req.objectKey, etag := req.etag, sha256 := req.sha256,
      sizeBytes := req.sizeBytes, createdBy := uid }
  (row,
   { files := fs.files.map (fun f =>
       if f.fileId == fid then
         { f with currentVersionId := some row.verId, sizeBytes := req.sizeBytes }
       else f),
     versions := row :: fs.versions,
     nextVerId := fs.nextVerId + 1 })

/-- Sequential (non-concurrent) complete calls, each by some user. -/
def completeSeq (fs : FileStore) (fid : Nat) (reqs : List (Nat × UploadReq)) :
    FileStore :=
  reqs.foldl (fun s r => (complete_upload s fid r.1 r.2).2) fs

/-- Folding `max` from any seed equals `max` of the seed and the fold. -/
theorem foldl_max_from (l : List Nat) : ∀ a : Nat, l.foldl max a = max a (l.foldl max 0) := by
  induction l with
  | nil => intro a; simp
  | cons b t ih =>
    intro a
    calc (b :: t).foldl max a = t.foldl max (max a b) := rfl
      _ = max (max a b) (t.foldl max 0) := ih (max a b)
      _ = max a (max b (t.foldl max 0)) := by rw [Nat.max_assoc]
      _ = max a (t.foldl max b) := by rw [ih b]
      _ = max a (t.foldl max (max 0 b)) := by rw [Nat.zero_max]
      _ = max a ((b :: t).foldl max 0) := rfl

/-- One complete call prepends the fresh number to the file's list. -/
theorem versionNosFor_complete (fs : FileStore) (fid uid : Nat) (req : UploadReq) :
    versionNosFor (complete_upload fs fid uid req).2 fid =
      (maxVersionNo fs fid + 1) :: versionNosFor fs fid := by
  simp [complete_upload, versionNosFor, nextVersionNo, List.filter_cons]

/-- One complete call bumps the maximal version number by one. -/
theorem maxVersionNo_complete (fs : FileStore) (fid uid : Nat) (req : UploadReq) :
    maxVersionNo (complete_upload fs fid uid req).2 fid = maxVersionNo fs fid + 1 := by
  unfold maxVersionNo
  rw [versionNosFor_complete]
  rw [List.foldl_cons, Nat.zero_max, foldl_max_from]
  exact Nat.max_eq_left (Nat.le_succ _)

/-- Sequential completes extend the (newest-first) version numbers. -/
theorem completeSeq_versionNos :
    ∀ (reqs : List (Nat × UploadReq)) (fs : FileStore) (fid n : Nat),
      versionNosFor fs fid = (List.range' 1 n).reverse →
      maxVersionNo fs fid = n →
      versionNosFor (completeSeq fs fid reqs) fid =
        (List.range' 1 (n + reqs.length)).reverse := by
  intro reqs
  induction reqs with
  | nil => intro fs fid n h1 h2; simpa [completeSeq] using h1
  | cons r t ih =>
    intro fs fid n h1 h2
    have hstep1 : versionNosFor (complete_upload fs fid r.1 r.2).2 fid =
        (List.range' 1 (n + 1)).reverse := by
      rw [versionNosFor_complete, h2, h1, List.range'_concat]
      simp [Nat.add_comm]
    have hstep2 : maxVersionNo (complete_upload fs fid r.1 r.2).2 fid = n + 1 := by
      rw [maxVersionNo_complete, h2]
    have := ih (complete_upload fs fid r.1 r.2).2 fid (n + 1) hstep1 hstep2
    have harith : n + 1 + t.length = n + (r :: t).length := by
      simp [List.length_cons]
      omega
    rw [harith] at this
    simpa [completeSeq] using this

/-- C7: with no versions yet for the file, the next version number at
complete-upload is 1, and in general it is `max(existing) + 1`;
consequently the version numbers produced by sequential
(non-concurrent) complete calls are exactly 1, 2, 3, … with no gaps
(listed newest first). -/
theorem c7_sequential_version_numbers (fs : FileStore) (fid : Nat)
    (h : fs.versions.filter (fun v => v.fileId == fid) = []) :
    nextVersionNo fs fid = maxVersionNo fs fid + 1 ∧
    nextVersionNo fs fid = 1 ∧
    ∀ reqs : List (Nat × UploadReq),
      versionNosFor (completeSeq fs fid reqs) fid =
        (List.range' 1 reqs.length).reverse := by
  have hnos : versionNosFor fs fid = [] := by
    simp [versionNosFor, h]
  refine ⟨rfl, ?_, ?_⟩
  · simp [nextVersionNo, maxVersionNo, hnos]
  · intro reqs
    have := completeSeq_versionNos reqs fs fid 0 (by simp [hnos]) (by simp [maxVersionNo, hnos])
    simpa using this

/-- Witness for C7: three sequential completes on a fresh file produce
version numbers 3, 2, 1 (newest first). -/
theorem c7_sequential_version_numbers_witness :
    (FileStore.mk [] [] 0).versions.filter (fun v => v.fileId == 1) = [] ∧
    versionNosFor
      (completeSeq ⟨[], [], 0⟩ 1
        [(7, ⟨"k1", "e", "s", 100⟩), (8, ⟨"k2", "e", "s", 200⟩),
         (9, ⟨"k3", "e", "s", 300⟩)]) 1 = [3, 2, 1] := by
  constructor
  · rfl
  · have h := (c7_sequential_version_numbers ⟨[], [], 0⟩ 1 rfl).2.2
      [(7, ⟨"k1", "e", "s", 100⟩), (8, ⟨"k2", "e", "s", 200⟩),
       (9, ⟨"k3", "e", "s", 300⟩)]
    simpa using h

/-- `find?` commutes with a map preserving the predicate. -/
theorem find?_map_of_pred_eq {α : Type} (g : α → α) (p : α → Bool)
    (h : ∀ x, p (g x) = p x) :
    ∀ l : List α, (l.map g).find? p = (l.find? p).map g := by
  intro l
  induction l with
  | nil => rfl
  | cons a t ih =>
    rw [List.map_cons]
    by_cases hpa : p a = true
    · rw [List.find?_cons_of_pos _ (by rw [h a]; exact hpa),
        List.find?_cons_of_pos _ hpa]
      rfl
    · rw [List.find?_cons_of_neg _ (by rw [h a]; exact hpa),
        List.find?_cons_of_neg _ hpa]
      exact ih

/-- C8: completing an upload appends the version row and, in the same
transition (one transaction in the code), points the file row at it and
mirrors its size; afterwards the file's current version is the
just-appended one and the file's `size_bytes` equals that version's
size. -/
theorem c8_append_sets_pointer_and_size (fs : FileStore) (fid uid : Nat)
    (req : UploadReq) (f : FileRow)
    (hf : fs.files.find? (fun r => r.fileId == fid) = some f) :
    ∃ row fs2, complete_upload fs fid uid req = (row, fs2) ∧
      row.sizeBytes = req.sizeBytes ∧
      row.versionNo = maxVersionNo fs fid + 1 ∧
      fs2.versions = row :: fs.versions ∧
      fs2.files.find? (fun r => r.fileId == fid) =
        some { f with currentVersionId := some row.verId,
                      sizeBytes := req.sizeBytes } := by
  refine ⟨_, _, rfl, rfl, rfl, rfl, ?_⟩
  have hpf := List.find?_some (p := fun r : FileRow => r.fileId == fid) (a := f) hf
  simp only [complete_upload]
  rw [find?_map_of_pred_eq _ _ (by
    intro x
    by_cases hx : (x.fileId == fid) = true
    · rw [if_pos hx]
    · rw [if_neg hx]), hf]
  rw [Option.map_some']
  rw [if_pos hpf]

/-- Witness for C8 on a store holding one file with no versions. -/
theorem c8_append_sets_pointer_and_size_witness :
    (FileStore.mk [⟨1, "a.pdf", "application/pdf", 0, none⟩] [] 5).files.find?
        (fun r => r.fileId == 1) = some ⟨1, "a.pdf", "application/pdf", 0, none⟩ ∧
    (∃ row fs2,
      complete_upload ⟨[⟨1, "a.pdf", "application/pdf", 0, none⟩], [], 5⟩ 1 7
          ⟨"k", "e", "s", 100⟩ = (row, fs2) ∧
      row.sizeBytes = 100 ∧
      row.versionNo =
        maxVersionNo ⟨[⟨1, "a.pdf", "application/pdf", 0, none⟩], [], 5⟩ 1 + 1 ∧
      fs2.versions = row :: ([] : List VersionRow) ∧
      fs2.files.find? (fun r => r.fileId == 1) =
        some { (⟨1, "a.pdf", "application/pdf", 0, none⟩ : FileRow) with
                 currentVersionId := some row.verId, sizeBytes := 100 }) :=
  ⟨rfl, c8_append_sets_pointer_and_size ⟨[⟨1, "a.pdf", "application/pdf", 0, none⟩], [], 5⟩
    1 7 ⟨"k", "e", "s", 100⟩ ⟨1, "a.pdf", "application/pdf", 0, none⟩ rfl⟩

/-! ### String helpers mirroring the Python string operations -/

/-- ASCII whitespace for Python's `str.strip` (the repository's names
are ASCII; unicode spaces are out of scope). -/
def isPySpace (c : Char) : Bool :=
  c == ' ' || c == '\t' || c == '\n' || c == '\r' || c == '\x0b' || c == '\x0c'

/-- Python `s.strip()` on a character list. -/
def pyStrip (l : List Char) : List Char :=
  ((l.dropWhile isPySpace).reverse.dropWhile isPySpace).reverse

/-- Python `s.rstrip(" .")`. -/
def rstripSpaceDot (l : List Char) : List Char :=
  (l.reverse.dropWhile (fun c => c == ' ' || c == '.')).reverse

/-- The character class `[a-zA-Z0-9._ -]` of `safe_name`'s regex. -/
def isAllowedChar (c : Char) : Bool :=
  ('a' ≤ c && c ≤ 'z') || ('A' ≤ c && c ≤ 'Z') || ('0' ≤ c && c ≤ '9') ||
  c == '.' || c == '_' || c == ' ' || c == '-'

/-- Python `re.sub(r"[^a-zA-Z0-9._ -]+", "_", s)`: each maximal run of
characters outside the class becomes a single underscore.  The flag
records whether the previous character was part of such a run. -/
def collapseSubAux : Bool → List Char → List Char
  | _, [] => []
  | prevBad, c :: rest =>
    if isAllowedChar c then c :: collapseSubAux false rest
    else if prevBad then collapseSubAux true rest
    else '_' :: collapseSubAux true rest

/-- The regex substitution of `safe_name`, starting outside a run. -/
def collapseSub (l : List Char) : List Char := collapseSubAux false l

/-- Python `s.replace("\\", "/").split("/")[-1]`: the last path
segment, i.e. the characters after the last `/` or `\`. -/
def lastSegment (l : List Char) : List Char :=
  ((l.map (fun c => if c == '\\' then '/' else c)).reverse.takeWhile
    (fun c => !(c == '/'))).reverse

/-- `safe_name` from `files.py` on a character list:
`name.strip().replace("\\","/").split("/")[-1]`, then the regex
substitution, then `name[:200]`. -/
def safeNameChars (l : List Char) : List Char :=
  (collapseSub (lastSegment (pyStrip l))).take 200

/-- `safe_name` from `files.py`. -/
def safe_name (s : String) : String := String.mk (safeNameChars s.data)

/-- Split at the last `.`: `some (before, after)` with
`l = before ++ '.' :: after` and no dot in `after`; `none` when `l`
has no dot.  `before.length` is Python's `rfind(".")`. -/
def splitAtLastDot (l : List Char) : Option (List Char × List Char) :=
  let r := l.reverse
  let a := r.takeWhile (fun c => !(c == '.'))
  if a.length = r.length then none
  else some ((r.drop (a.length + 1)).reverse, a.reverse)

/--`old_ext` of `rename_file`: the suffix from the last dot inclusive,
provided the dot is neither the first nor the last character
(`0 < i < len(old_name) - 1`). -/
def extOf (l : List Char) : List Char :=
  match splitAtLastDot l with
  | none => []
  | some (before, after) =>
      if before ≠ [] ∧ after ≠ [] then '.' :: after else []

/-- ASCII letter or digit, the class `[A-Za-z0-9]` of the rename regex. -/
def isAlnumAscii (c : Char) : Bool :=
  ('a' ≤ c && c ≤ 'z') || ('A' ≤ c && c ≤ 'Z') || ('0' ≤ c && c ≤ '9')

/-- The `common_exts` set of `rename_file`. -/
def commonExts : List String :=
  ["pdf", "doc", "docx", "xls", "xlsx", "csv", "png", "jpg", "jpeg", "gif",
   "webp", "dxf", "nc", "tap", "gcode", "txt", "zip", "rar", "7z"]

/-- The new-name computation of `rename_file` (`files.py` lines 95-127):
keep the stored name's extension; strip a caller-supplied copy of it
(case-insensitively) or a known common extension (the greedy regex
`^(.*)\.([A-Za-z0-9]\x7b1,8\x7d)$` matches exactly when the segment
after the LAST dot is 1-8 alphanumerics); clean the base with
`rstrip(" .").strip()`; reject (`422`) when the sanitized or cleaned
base is empty.  `none` models the two `HTTPException(422)` raises.
`rename_base1` is the base with the caller's extension stripped. -/
def rename_base1 (old_ext new1 : List Char) : List Char :=
  if (old_ext.map Char.toLower).isSuffixOf (new1.map Char.toLower) then
    new1.take (new1.length - old_ext.length)
  else
    match splitAtLastDot new1 with
    | some (b, e) =>
        if 1 ≤ e.length ∧ e.length ≤ 8 ∧ e.all isAlnumAscii ∧
            String.mk (e.map Char.toLower) ∈ commonExts then b
        else new1
    | none => new1

/-- The cleaned base: `base.rstrip(" .").strip()` applied to the base
with the caller's extension stripped. -/
def rename_base2 (old_ext new1 : List Char) : List Char :=
  pyStrip (rstripSpaceDot (rename_base1 old_ext new1))

/-- Full new-name computation of the rename route (see above). -/
def rename_compute (oldName reqName : String) : Option String :=
  let old_ext := extOf (pyStrip oldName.data)
  let new1 := safeNameChars reqName.data
  if new1 = [] then none
  else if old_ext = [] then some (String.mk new1)
  else if rename_base2 old_ext new1 = [] then none
  else some (String.mk (rename_base2 old_ext new1 ++ old_ext))

/-- Object key built by `initiate_upload`:
`files/{file_id}/{upid}/{safe_name(filename)}` with `upid` the hex of a
fresh UUID (externalized here as an argument). -/
def objectKey (fidStr upid filename : String) : String :=
  "files/" ++ fidStr ++ "/" ++ upid ++ "/" ++ safe_name filename

/-! ### Conflict guard and the gated file routes -/

/-- Result of `_ensure_not_locked`. -/
inductive GuardResult where
  | ok
  | locked (lockedBy : Nat) (expiresAt : Nat)
deriving DecidableEq, Repr

/-- `_ensure_not_locked` in `files.py`: look up the most recent active
lock (`ORDER BY locked_at DESC LIMIT 1`; under `LockInv` at most one
active row exists, so `find?` on the newest-first list agrees), flip a
stale one inactive, 409 when an unexpired one is held by someone else. -/
def ensure_not_locked (ls : LockStore) (now fid uid : Nat) :
    GuardResult × LockStore :=
  match findActiveLock ls.locks fid with
  | none => (.ok, ls)
  | some row =>
      if row.expiresAt ≤ now then (.ok, deactivateLock ls row.lockId)
      else if row.lockedBy ≠ uid then (.locked row.lockedBy row.expiresAt, ls)
      else (.ok, ls)

/-- Result of `PATCH /files/{file_id}` (rename). -/
inductive RenameResult where
  | ok (f : FileRow)
  | conflict (lockedBy : Nat) (expiresAt : Nat)
  | notFound
  | invalid
deriving DecidableEq, Repr

/-- `rename_file` in `files.py`: guard, then 404 / name computation /
update.  On an exception path the session's uncommitted stale-lock flip
is rolled back (`async with` closes the session without commit), hence
those paths return the original lock store. -/
def rename_file (ls : LockStore) (fs : FileStore) (now fid uid : Nat)
    (reqName : String) : RenameResult × LockStore × FileStore :=
  match ensure_not_locked ls now fid uid with
  | (.locked h e, _) => (.conflict h e, ls, fs)
  | (.ok, ls1) =>
      match fs.files.find? (fun f => f.fileId == fid) with
      | none => (.notFound, ls, fs)
      | some f =>
          match rename_compute f.name reqName with
          | none => (.invalid, ls, fs)
          | some nm =>
              (.ok { f with name := nm }, ls1,
               { fs with files := fs.files.map (fun g =>
                   if g.fileId == fid then { g with name := nm } else g) })

/-- Result of `DELETE /files/{file_id}`. -/
inductive DeleteResult where
  | ok
  | conflict (lockedBy : Nat) (expiresAt : Nat)
  | notFound
deriving DecidableEq, Repr

/-- `delete_file` in `files.py`: guard, 404 when absent, else delete
the file row (versions cascade with it, spec §3; blob cleanup is
best-effort and out of metadata scope). -/
def delete_file (ls : LockStore) (fs : FileStore) (now fid uid : Nat) :
    DeleteResult × LockStore × FileStore :=
  match ensure_not_locked ls now fid uid with
  | (.locked h e, _) => (.conflict h e, ls, fs)
  | (.ok, ls1) =>
      match fs.files.find? (fun f => f.fileId == fid) with
      | none => (.notFound, ls, fs)
      | some _ =>
          (.ok, ls1,
           { fs with files := fs.files.filter (fun f => !(f.fileId == fid)),
                     versions := fs.versions.filter (fun v => !(v.fileId == fid)) })

/-! ### Claim C9: rename preserves the stored extension -/

/-- C9: for every file whose (stripped) current name has an extension
(`extOf ≠ []`), any successful rename produces a non-empty name ending
with that same extension — a caller-supplied extension (the original
one, case-insensitively, or a known common one) having been stripped
from the base first — and a request whose sanitized name is empty is
rejected as invalid (422, modelled as `none`). -/
theorem c9_rename_preserves_extension (oldName reqName : String)
    (hext : extOf (pyStrip oldName.data) ≠ []) :
    (∀ s, rename_compute oldName reqName = some s →
      extOf (pyStrip oldName.data) <:+ s.data ∧ s.data ≠ []) ∧
    (safeNameChars reqName.data = [] →
      rename_compute oldName reqName = none) := by
  constructor
  · intro s hres
    simp only [rename_compute] at hres
    by_cases h1 : safeNameChars reqName.data = []
    · rw [if_pos h1] at hres
      cases hres
    · rw [if_neg h1, if_neg hext] at hres
      by_cases h2 : rename_base2 (extOf (pyStrip oldName.data))
          (safeNameChars reqName.data) = []
      · rw [if_pos h2] at hres
        cases hres
      · rw [if_neg h2] at hres
        injection hres with h3
        subst h3
        refine ⟨⟨_, rfl⟩, ?_⟩
        intro hc
        exact hext (List.append_eq_nil.mp hc).2
  · intro h1
    simp only [rename_compute]
    rw [if_pos h1]

/-- Witness for C9: renaming `part.PDF` to `new part.pdf` (and the
empty-name rejection) at those concrete strings. -/
theorem c9_rename_preserves_extension_witness :
    extOf (pyStrip "part.PDF".data) ≠ [] ∧
    ((∀ s, rename_compute "part.PDF" "new part.pdf" = some s →
        extOf (pyStrip "part.PDF".data) <:+ s.data ∧ s.data ≠ []) ∧
      (safeNameChars "new part.pdf".data = [] →
        rename_compute "part.PDF" "new part.pdf" = none)) :=
  ⟨by decide, c9_rename_preserves_extension "part.PDF" "new part.pdf" (by decide)⟩

/-! ### Claim C10: safe_name sanitization and object keys -/

/-- Modelled from the claim's words, not from the source, for
comparison: replace each character outside `[a-zA-Z0-9._ -]` with its
own underscore (no run collapsing). -/
def charwiseSafeName (s : String) : String :=
  String.mk (((lastSegment (pyStrip s.data)).map
    (fun c => if isAllowedChar c then c else '_')).take 200)

/-- Counterexample to C10 as stated: on `"a@@b"` the code's
`re.sub(r"[^a-zA-Z0-9._ -]+", "_", ·)` collapses the run `@@` to a
single underscore, giving `"a_b"`, whereas replacing every character
outside the class with `'_'` would give `"a__b"`. -/
theorem c10_counterexample :
    safe_name "a@@b" = "a_b" ∧ charwiseSafeName "a@@b" = "a__b" ∧
    safe_name "a@@b" ≠ charwiseSafeName "a@@b" :=
  ⟨rfl, rfl, by decide⟩

/-- Every character emitted by the run-collapsing substitution lies in
the allowed class. -/
theorem mem_collapseSubAux_allowed :
    ∀ (l : List Char) (b : Bool) (c : Char),
      c ∈ collapseSubAux b l → isAllowedChar c = true := by
  intro l
  induction l with
  | nil => intro b c hc; cases hc
  | cons d rest ih =>
    intro b c hc
    simp only [collapseSubAux] at hc
    by_cases hd : isAllowedChar d = true
    · rw [if_pos hd] at hc
      rcases List.mem_cons.mp hc with rfl | hmem
      · exact hd
      · exact ih false c hmem
    · rw [if_neg hd] at hc
      cases b with
      | true =>
        rw [if_pos rfl] at hc
        exact ih true c hc
      | false =>
        rw [if_neg (by simp)] at hc
        rcases List.mem_cons.mp hc with rfl | hmem
        · rfl
        · exact ih true c hmem

/-- C10 amended: for every input, `safe_name` emits only characters of
`[a-zA-Z0-9._ -]` (each maximal run of other characters collapsed to a
single `'_'`; in particular no `/` or `\` survives) and at most 200 of
them; every object key produced by `initiate_upload` is
`files/{file_id}/{upid}/{sanitized name}` and therefore keeps
`files/{file_id}/` as a prefix: a client-chosen filename cannot escape
the file's key prefix. -/
theorem c10_safe_name_sanitizes (s fidStr upid : String) :
    (∀ c ∈ (safe_name s).data, isAllowedChar c = true) ∧
    ('/' ∉ (safe_name s).data ∧ '\\' ∉ (safe_name s).data) ∧
    (safe_name s).data.length ≤ 200 ∧
    objectKey fidStr upid s =
      ("files/" ++ fidStr ++ "/") ++ (upid ++ "/" ++ safe_name s) := by
  have hall : ∀ c ∈ (safe_name s).data, isAllowedChar c = true := by
    intro c hc
    have hc2 : c ∈ collapseSub (lastSegment (pyStrip s.data)) :=
      List.take_subset _ _ hc
    exact mem_collapseSubAux_allowed _ false c hc2
  refine ⟨hall, ⟨?_, ?_⟩, ?_, ?_⟩
  · intro hmem
    have := hall _ hmem
    simp [isAllowedChar] at this
  · intro hmem
    have := hall _ hmem
    simp [isAllowedChar] at this
  · exact List.length_take_le _ _
  · simp only [objectKey, String.append_assoc]

/-! ### Claim C2: what the conflict guard actually gates -/

/-- The guard's 409 branch: an unexpired lock held by someone else. -/
theorem guard_of_locked {ls : LockStore} {now fid uid : Nat} {l : LockRow}
    (hfind : findActiveLock ls.locks fid = some l)
    (hun : now < l.expiresAt) (hdiff : l.lockedBy ≠ uid) :
    ensure_not_locked ls now fid uid = (.locked l.lockedBy l.expiresAt, ls) := by
  simp only [ensure_not_locked, hfind]
  rw [if_neg (Nat.not_le.mpr hun), if_pos hdiff]

/-- The guard passes when the lock is absent, expired, or the actor's. -/
theorem guard_ok_of_free {ls : LockStore} {now fid uid : Nat}
    (hfree : findActiveLock ls.locks fid = none ∨
      ∃ l, findActiveLock ls.locks fid = some l ∧
        (l.expiresAt ≤ now ∨ l.lockedBy = uid)) :
    (ensure_not_locked ls now fid uid).1 = .ok := by
  rcases hfree with hnone | ⟨l, hfind, hcase⟩
  · simp [ensure_not_locked, hnone]
  · simp only [ensure_not_locked, hfind]
    by_cases hexp : l.expiresAt ≤ now
    · rw [if_pos hexp]
    · rcases hcase with hexp2 | hold
      · exact absurd hexp2 hexp
      · rw [if_neg hexp, if_neg (by simp [hold])]

/-- Counterexample to C2 as stated: file 1 is locked by user 1 until
t=100 and `now = 10`, so the guard reports Locked to user 2 — yet
`complete_upload` by user 2 succeeds and appends a version row: the
route never consults the lock store, so upload-complete is not gated. -/
theorem c2_counterexample :
    (ensure_not_locked ⟨[⟨0, 1, 1, "c", 0, 100, true⟩], 1⟩ 10 1 2).1 =
      .locked 1 100 ∧
    (complete_upload ⟨[⟨1, "a.pdf", "m", 0, none⟩], [], 0⟩ 1 2
        ⟨"k", "e", "s", 50⟩).2.versions = [⟨0, 1, 1, "k", "e", "s", 50, 2⟩] :=
  ⟨rfl, rfl⟩

/-- C2 amended: the conflict guard gates rename and delete — with an
active unexpired lock held by another actor both fail with a conflict
carrying the holder and expiry and change nothing, and with the lock
absent, expired, or held by the actor neither can return a conflict —
while upload-complete is not gated at all: it appends a version
regardless of any lock. -/
theorem c2_guard_gates_rename_delete_only (ls : LockStore) (fs : FileStore)
    (now fid uid : Nat) (l : LockRow) (nm : String) (uid2 : Nat) (req : UploadReq)
    (hfind : findActiveLock ls.locks fid = some l)
    (hun : now < l.expiresAt) (hdiff : l.lockedBy ≠ uid) :
    rename_file ls fs now fid uid nm = (.conflict l.lockedBy l.expiresAt, ls, fs) ∧
    delete_file ls fs now fid uid = (.conflict l.lockedBy l.expiresAt, ls, fs) ∧
    (∀ (ls2 : LockStore) (now2 uid3 : Nat),
      (findActiveLock ls2.locks fid = none ∨
        ∃ l2, findActiveLock ls2.locks fid = some l2 ∧
          (l2.expiresAt ≤ now2 ∨ l2.lockedBy = uid3)) →
      (∀ h e, (rename_file ls2 fs now2 fid uid3 nm).1 ≠ .conflict h e) ∧
      (∀ h e, (delete_file ls2 fs now2 fid uid3).1 ≠ .conflict h e)) ∧
    (complete_upload fs fid uid2 req).2.versions =
      (complete_upload fs fid uid2 req).1 :: fs.versions := by
  refine ⟨?_, ?_, ?_, rfl⟩
  · simp only [rename_file, guard_of_locked hfind hun hdiff]
  · simp only [delete_file, guard_of_locked hfind hun hdiff]
  · intro ls2 now2 uid3 hfree
    have hok := guard_ok_of_free hfree
    cases hG : ensure_not_locked ls2 now2 fid uid3 with
    | mk r X =>
      rw [hG] at hok
      subst hok
      constructor
      · intro h e
        simp only [rename_file, hG]
        split
        · simp
        · split
          · simp
          · simp
      · intro h e
        simp only [delete_file, hG]
        split
        · simp
        · simp

/-- Witness for the amended C2 at a concrete locked state: user 1 holds
file 1 until t=100; at t=10 user 2's rename and delete conflict, the
free cases cannot conflict, and user 2's complete-upload appends. -/
theorem c2_guard_gates_rename_delete_only_witness :
    findActiveLock (LockStore.mk [⟨0, 1, 1, "c", 0, 100, true⟩] 1).locks 1 =
      some ⟨0, 1, 1, "c", 0, 100, true⟩ ∧
    10 < (100 : Nat) ∧ (1 : Nat) ≠ 2 ∧
    (rename_file ⟨[⟨0, 1, 1, "c", 0, 100, true⟩], 1⟩
        ⟨[⟨1, "a.pdf", "m", 0, none⟩], [], 0⟩ 10 1 2 "b" =
      (.conflict 1 100, ⟨[⟨0, 1, 1, "c", 0, 100, true⟩], 1⟩,
        ⟨[⟨1, "a.pdf", "m", 0, none⟩], [], 0⟩) ∧
    delete_file ⟨[⟨0, 1, 1, "c", 0, 100, true⟩], 1⟩
        ⟨[⟨1, "a.pdf", "m", 0, none⟩], [], 0⟩ 10 1 2 =
      (.conflict 1 100, ⟨[⟨0, 1, 1, "c", 0, 100, true⟩], 1⟩,
        ⟨[⟨1, "a.pdf", "m", 0, none⟩], [], 0⟩) ∧
    (∀ (ls2 : LockStore) (now2 uid3 : Nat),
      (findActiveLock ls2.locks 1 = none ∨
        ∃ l2, findActiveLock ls2.locks 1 = some l2 ∧
          (l2.expiresAt ≤ now2 ∨ l2.lockedBy = uid3)) →
      (∀ h e, (rename_file ls2 ⟨[⟨1, "a.pdf", "m", 0, none⟩], [], 0⟩
          now2 1 uid3 "b").1 ≠ .conflict h e) ∧
      (∀ h e, (delete_file ls2 ⟨[⟨1, "a.pdf", "m", 0, none⟩], [], 0⟩
          now2 1 uid3).1 ≠ .conflict h e)) ∧
    (complete_upload ⟨[⟨1, "a.pdf", "m", 0, none⟩], [], 0⟩ 1 2
        ⟨"k", "e", "s", 50⟩).2.versions =
      (complete_upload ⟨[⟨1, "a.pdf", "m", 0, none⟩], [], 0⟩ 1 2
        ⟨"k", "e", "s", 50⟩).1 :: ([] : List VersionRow)) :=
  ⟨rfl, by decide, by decide,
    c2_guard_gates_rename_delete_only ⟨[⟨0, 1, 1, "c", 0, 100, true⟩], 1⟩
      ⟨[⟨1, "a.pdf", "m", 0, none⟩], [], 0⟩ 10 1 2
      ⟨0, 1, 1, "c", 0, 100, true⟩ "b" 2 ⟨"k", "e", "s", 50⟩
      rfl (by decide) (by decide)⟩

end Minifixwood
